import Mathlib

/-!
Verification of the schema-sync repository (`schemasync_tables.py`, `utils.py`)
against its natural-language specification.

The Python source is shallowly embedded: pure helpers from `utils.py` become
Lean functions over `String`/`List Char`, and the buffer-writing loop of `app`
in `schemasync_tables.py` becomes a fold over an explicit write-event list.
The `syncdb` module is not part of the two source files; where a claim depends
on it, a definition modelled from the specification text is used and marked as
such in its doc comment.
-/

/-! ## Python character and integer-literal primitives -/

/-- Whitespace characters matched by Python's regex class `\s` (ASCII range),
used by `REGEX_MULTI_SPACE`, `REGEX_DISTANT_SEMICOLIN` and
`REGEX_SEMICOLON_EXPLODE_TO_NEWLINE` in `utils.py`. -/
def isPySpace (c : Char) : Bool :=
  c = ' ' || c = '\t' || c = '\n' || c = '\r' || c = '\x0b' || c = '\x0c'

/-- Separator characters of the regex class `[.-]` used as the default
`separator` of `compare_version` in `utils.py`. -/
def isVersionSep (c : Char) : Bool :=
  c = '.' || c = '-'

/-- Worker for `splitSep`: splits a character list at every separator,
accumulating the current component in reverse. -/
def splitSepGo : List Char → List Char → List String
  | [], cur => [cur.reverse.asString]
  | c :: cs, cur =>
    if isVersionSep c then cur.reverse.asString :: splitSepGo cs []
    else splitSepGo cs (c :: cur)

/-- Embedding of `re.split('[.-]', s)` as used by `compare_version`
(`utils.py` line 172): like Python, an empty string yields `[""]` and
adjacent separators yield empty components. -/
def splitSep (s : String) : List String :=
  splitSepGo s.toList []

/-- Digit run with single underscores allowed between digits, as accepted by
Python's `int` constructor; returns the accumulated value. -/
def parseDigitsGo (acc : Nat) : List Char → Option Nat
  | [] => some acc
  | '_' :: c :: rest =>
    if c.isDigit then parseDigitsGo (acc * 10 + (c.toNat - 48)) rest else none
  | c :: rest =>
    if c.isDigit then parseDigitsGo (acc * 10 + (c.toNat - 48)) rest else none

/-- Nonempty digit sequence (underscore grouping allowed) for Python `int`. -/
def parseDigits : List Char → Option Nat
  | [] => none
  | c :: rest =>
    if c.isDigit then parseDigitsGo (c.toNat - 48) rest else none

/-- Strip leading and trailing Python whitespace, as `int` does. -/
def pyStrip (l : List Char) : List Char :=
  ((l.dropWhile isPySpace).reverse.dropWhile isPySpace).reverse

/-- Embedding of Python's `int(s)` on a decimal string: optional surrounding
whitespace, optional sign, then digits with optional underscore grouping.
`none` models the `ValueError` caught in `compare_version`
(`utils.py` lines 176-180). -/
def pyInt? (s : String) : Option Int :=
  match pyStrip s.toList with
  | '+' :: rest => (parseDigits rest).map (fun n => (n : Int))
  | '-' :: rest => (parseDigits rest).map (fun n => -(n : Int))
  | rest => (parseDigits rest).map (fun n => (n : Int))

/-! ## `compare_version` (`utils.py` lines 161-181) -/

/-- A Python value returned by `compare_version`: either the integer literal
`0` or the `bool` produced by `operator.eq`. -/
inductive PyCmpResult
  | int (n : Int)
  | bool (b : Bool)
deriving DecidableEq, Repr

/-- Numeric value of a `compare_version` result under Python's arithmetic
comparison semantics (`False == 0`, `True == 1`), as used by the
`compare_version(...) < 0` guards in `app`. -/
def toIntVal : PyCmpResult → Int
  | .int n => n
  | .bool b => if b then 1 else 0

/-- Loop body of `compare_version` over the index-paired components
(`for index in range(min(len(x_array), len(y_array)))`): at the first pair of
unequal component strings, return `operator.eq` of their `int` values, or `0`
if either raises `ValueError`; return `0` when no pair differs. -/
def cvGo : List (String × String) → PyCmpResult
  | [] => .int 0
  | (a, b) :: rest =>
    if a ≠ b then
      match pyInt? a, pyInt? b with
      | some i, some j => .bool (i == j)
      | _, _ => .int 0
    else cvGo rest

/-- Embedding of `compare_version(x, y)` from `utils.py` lines 161-181 with
the default separator `[.-]`. -/
def compare_version (x y : String) : PyCmpResult :=
  cvGo ((splitSep x).zip (splitSep y))

/-- The first index-paired components of the two version strings whose
component strings differ (the pair `compare_version` acts on). -/
def firstDiff (x y : String) : Option (String × String) :=
  ((splitSep x).zip (splitSep y)).find? (fun p => p.1 != p.2)

/-- Embedding of the version guard in `app` (`schemasync_tables.py`
lines 366-374): `utils.compare_version(version, '5.0.0') < 0`, the condition
under which `app` logs an error and returns 1. -/
def version_check_below_min (v : String) : Bool :=
  decide (toIntVal (compare_version v "5.0.0") < 0)

/-! ## `create_pnames` (`utils.py` lines 51-77) -/

/-- Character map of `re.sub('[^A-Za-z0-9_-]', '_', tag)`: a character outside
`[A-Za-z0-9_-]` becomes an underscore. -/
def sanitizeChar (c : Char) : Char :=
  if c.isAlpha || c.isDigit || c = '_' || c = '-' then c else '_'

/-- Embedding of `re.sub('[^A-Za-z0-9_-]', '_', tag)` (`utils.py` line 67). -/
def pySubNonWord (s : String) : String :=
  (s.toList.map sanitizeChar).asString

/-- Embedding of the `'__' in tag` containment test (`utils.py` line 68). -/
def hasDoubleUnderscore : List Char → Bool
  | c :: d :: rest => (c = '_' && d = '_') || hasDoubleUnderscore (d :: rest)
  | _ => false

/-- Embedding of `re.sub('_+', '_', tag)` (`utils.py` line 69): every run of
underscores collapses to a single underscore (an underscore directly followed
by another underscore is dropped). -/
def collapseUnderscoresGo : List Char → List Char
  | [] => []
  | [c] => [c]
  | c :: d :: rest =>
    if c = '_' && d = '_' then collapseUnderscoresGo (d :: rest)
    else c :: collapseUnderscoresGo (d :: rest)

/-- The tag as it appears in the basename: non-word characters replaced by
underscores, then (only when the result contains `'__'`) underscore runs
collapsed (`utils.py` lines 67-69). -/
def pyTagBasename (t : String) : String :=
  let t1 := pySubNonWord t
  if hasDoubleUnderscore t1.toList then (collapseUnderscoresGo t1.toList).asString
  else t1

/-- Embedding of `create_pnames(db, tag, date_format, no_date)` from
`utils.py` lines 51-77.  The argument `d` stands for the already-formatted
current date `datetime.datetime.now().strftime(date_format)` (the one
impure input).  `tag = some t` with `t ≠ ""` models a truthy Python `tag`. -/
def create_pnames (db : String) (tag : Option String) (d : String)
    (no_date : Bool) : String × String :=
  let basename :=
    match tag with
    | some t =>
      if t ≠ "" then db ++ "_" ++ pyTagBasename t ++ "." ++ d
      else if no_date then db else db ++ "." ++ d
    | none => if no_date then db else db ++ "." ++ d
  (basename ++ "." ++ "patch.sql", basename ++ "." ++ "revert.sql")

/-! ## The write loops of `app` (`schemasync_tables.py` lines 418-470)

`app` iterates over the `(patch, revert)` pairs produced by the four `syncdb`
synchronizers and writes into two `PatchBuffer`s.  The two buffers always
receive writes at the same call sites (`p_buffer` the forward text, `r_buffer`
the backward text), so the loop is embedded as a single sequence of tagged
write events; each buffer's text is a rendering of that one sequence. -/

/-- The kind of synchronizer a change block comes from. -/
inductive Kind
  | table
  | view
  | trig
  | routine
deriving DecidableEq, Repr

/-- One write event of the loop: the `USE` statement from
`target_obj.selected.select()`, the `FOREIGN_KEY_CHECKS` disable
(`fk_checks(0)`) and enable (`fk_checks(1)`) statements, or a change block
(the forward text written to the patch buffer and the backward text written
to the revert buffer). -/
inductive Ev
  | sel
  | fk0
  | fk1
  | block (k : Kind) (patch revert : String)
deriving DecidableEq, Repr

/-- Python truthiness of `if patch and revert:`
(`schemasync_tables.py` lines 422, 439, 450, 461): both strings non-empty. -/
def bothNE (pr : String × String) : Bool :=
  pr.1 != "" && pr.2 != ""

/-- The events written before the first block when the database has not been
selected yet: every loop writes `select()`; the table and procedure loops
also write `fk_checks(0)` (`schemasync_tables.py` lines 423-428, 440-443,
451-454, 462-467). -/
def preamble (withFkDisable : Bool) : List Ev :=
  if withFkDisable then [.sel, .fk0] else [.sel]

/-- Loop state: the `db_selected` flag and the events written so far. -/
structure St where
  dbSelected : Bool
  evs : List Ev
deriving DecidableEq, Repr

/-- One iteration of a synchronizer loop in `app`: skip the pair unless both
sides are truthy; otherwise write the preamble on the first write and then
the block. -/
def entityStep (k : Kind) (withFkDisable : Bool) (st : St)
    (pr : String × String) : St :=
  if bothNE pr then
    if st.dbSelected then { st with evs := st.evs ++ [Ev.block k pr.1 pr.2] }
    else { dbSelected := true,
           evs := st.evs ++ preamble withFkDisable ++ [Ev.block k pr.1 pr.2] }
  else st

/-- Embedding of `if db_selected: p_buffer.write(fk_checks(1)); ...`
(`schemasync_tables.py` lines 433-435), run right after the table loop. -/
def fk1Step (st : St) : St :=
  if st.dbSelected then { st with evs := st.evs ++ [Ev.fk1] } else st

/-- The full write-event sequence of `app` (`schemasync_tables.py` lines
418-470): the table loop (with `fk_checks(0)` in its preamble), the
`fk_checks(1)` write guarded by `db_selected` right after it, then the view,
trigger and procedure loops (the procedure loop again has `fk_checks(0)` in
its preamble). -/
def appEvents (tables views trigs procs : List (String × String)) : List Ev :=
  (procs.foldl (entityStep .routine true)
    (trigs.foldl (entityStep .trig false)
      (views.foldl (entityStep .view false)
        (fk1Step (tables.foldl (entityStep .table true) ⟨false, []⟩))))).evs

/-- Text written to the patch buffer for one event (each write appends a
trailing newline in the source; renderings abstract over the concrete
`select()` / `fk_checks` statement texts produced by the schema object). -/
def renderPatch (sel fk0 fk1 : String) : Ev → String
  | .sel => sel
  | .fk0 => fk0
  | .fk1 => fk1
  | .block _ patch _ => patch

/-- Text written to the revert buffer for one event. -/
def renderRevert (sel fk0 fk1 : String) : Ev → String
  | .sel => sel
  | .fk0 => fk0
  | .fk1 => fk1
  | .block _ _ revert => revert

/-- The payload of a block event, if any. -/
def blockOf : Ev → Option (Kind × String × String)
  | .block k p r => some (k, p, r)
  | _ => none

/-- The kind of a block event, if any. -/
def kindOf : Ev → Option Kind
  | .block k _ _ => some k
  | _ => none

/-- The block events of one synchronizer's pair list. -/
def blocksOf (k : Kind) (l : List (String × String)) : List Ev :=
  l.map fun pr => Ev.block k pr.1 pr.2

/-! ## `PatchBuffer` (`utils.py` lines 184-233) and the end of `app` -/

/-- Embedding of `utils.PatchBuffer`: the in-memory `StringIO` buffer, the
`modified` flag, the target filename, the output filters and the template
application `self.tpl % self.ctx` (abstracted as a function of the data). -/
structure PatchBuffer where
  name : String
  filters : List (String → String)
  tpl : String → String
  buffer : String
  modified : Bool

/-- Embedding of `PatchBuffer.write` (`utils.py` lines 210-213). -/
def PatchBuffer.write (pb : PatchBuffer) (data : String) : PatchBuffer :=
  { pb with modified := true, buffer := pb.buffer ++ data }

/-- Embedding of `PatchBuffer.save` (`utils.py` lines 215-233): on an empty
buffer it returns `False` with no file side effect (`none`); otherwise it
returns `True` together with the written file, whose content is the filtered
buffer passed through the template. -/
def PatchBuffer.save (pb : PatchBuffer) : Bool × Option (String × String) :=
  if pb.buffer = "" then (false, none)
  else (true, some (pb.name, pb.tpl (pb.filters.foldl (fun d f => f d) pb.buffer)))

/-- The buffer after `app`'s loops have written the given lines (each
`write` call in the loops appends `'\n'`). -/
def bufferAfter (pb : PatchBuffer) (lines : List String) : PatchBuffer :=
  lines.foldl (fun b s => b.write (s ++ "\n")) pb

/-- Embedding of the tail of `app` (`schemasync_tables.py` lines 472-503):
if the patch buffer was never written, report the databases in sync
(the `Bool` component) and return 0 with no file written; otherwise save
both buffers and return 0.  (The `OSError` handler and the optional
alert-and-delete path are outside this model.) -/
def appFinish (pb rb : PatchBuffer) :
    Nat × Bool × Option (String × String) × Option (String × String) :=
  if pb.modified = false then (0, true, none, none)
  else (0, false, (pb.save).2, (rb.save).2)

/-! ## Claim C3: existing-only mode -/

/-- A table-level DDL statement, at the granularity the specification talks
about (creation, removal, or in-place alteration of one table). -/
inductive TableStmt
  | createTable (name defn : String)
  | dropTable (name : String)
  | alterTable (name changes : String)
deriving DecidableEq, Repr

/-- Whether a statement creates or drops a table. -/
def isExistenceStmt : TableStmt → Bool
  | .createTable _ _ => true
  | .dropTable _ => true
  | .alterTable _ _ => false

/-- Names of a snapshot's tables (a snapshot side is a list of
`(table name, rendered definition)` pairs). -/
def tableNames (ts : List (String × String)) : List String :=
  ts.map (·.1)

/-- Definition of a named table in a snapshot side, if present. -/
def lookupTable (ts : List (String × String)) (n : String) : Option String :=
  (ts.find? (fun pr => pr.1 == n)).map (·.2)

/-- Whether a name passes an optional explicit name filter (absence means
consider every name). -/
def inFilter (f : Option (List String)) (n : String) : Bool :=
  match f with
  | none => true
  | some l => l.contains n

/-- Embedding of the `only_sync_exists_tables` branch of `app`
(`schemasync_tables.py` lines 376-387): when the flag is set, the
user-supplied `filter_tables` is discarded and replaced by the list of table
names read from the target database (`SHOW TABLES`, passed here as
`targetNames`); otherwise the user filter is passed through. -/
def resolve_filter_tables (only_sync_exists_tables : Bool)
    (user : Option (List String)) (targetNames : List String) :
    Option (List String) :=
  if only_sync_exists_tables then some targetNames else user

/-- Modelled from the spec: `syncdb.sync_schema`, whose module is not under
`src/`.  Per spec section 4.2 the differ classifies names present in either
snapshot (restricted by the table filter) as added (source only), removed
(target only) or common; per section 4.3, a source-only table yields
`CREATE TABLE` forward / `DROP TABLE` backward, a target-only table yields
`DROP TABLE` forward / `CREATE TABLE` backward — except that with
`existing_only = true` table-existence changes are suppressed entirely — and
a table on both sides with differing definitions yields a forward and a
backward alteration block built from the two definitions. -/
def sync_schema (src tgt : List (String × String))
    (filterTables : Option (List String)) (existingOnly : Bool) :
    List (List TableStmt × List TableStmt) :=
  let names := tableNames src
    ++ (tableNames tgt).filter (fun n => !(tableNames src).contains n)
  (names.filter (inFilter filterTables)).filterMap fun n =>
    match lookupTable src n, lookupTable tgt n with
    | some d, none =>
      if existingOnly then none
      else some ([.createTable n d], [.dropTable n])
    | none, some d =>
      if existingOnly then none
      else some ([.dropTable n], [.createTable n d])
    | some ds, some dt =>
      if ds ≠ dt then some ([.alterTable n ds], [.alterTable n dt]) else none
    | none, none => none

/-- `app`'s table synchronization call with the resolved filter
(`schemasync_tables.py` lines 376-387 and 419-421): in
`only_sync_exists_tables` mode the filter handed to `sync_schema` is the
target's current table-name list. -/
def app_table_sync (only_sync_exists_tables : Bool)
    (user : Option (List String)) (src tgt : List (String × String)) :
    List (List TableStmt × List TableStmt) :=
  sync_schema src tgt
    (resolve_filter_tables only_sync_exists_tables user (tableNames tgt))
    only_sync_exists_tables

/-! ## Claim C7: the three output filters (`schemasync_tables.py` 390-392)

`app` installs three data-transformation filters applied in order by
`PatchBuffer.save`: `REGEX_MULTI_SPACE.sub(' ', d)` (every maximal run of
two or more whitespace characters becomes one space),
`REGEX_DISTANT_SEMICOLIN.sub(';', d)` (whitespace before a final semicolon —
at end of string or just before a trailing newline — is deleted), and
`REGEX_SEMICOLON_EXPLODE_TO_NEWLINE.sub(';\n', d)` (a semicolon plus the
maximal whitespace run after it becomes semicolon-newline).  The first and
third are embedded as one-pass state machines whose `Bool` argument records
being inside an already-replaced whitespace run. -/

/-- Embedding of `re.sub(r'\s\s+', ' ', d)`: in run-swallowing mode
(first argument `true`) the remaining whitespace of a replaced run is
consumed; otherwise a whitespace character followed by another starts a run
(emitting one space), a lone whitespace character is kept, and any other
character is copied. -/
def collapseGo : Bool → List Char → List Char
  | _, [] => []
  | true, c :: cs =>
    if isPySpace c then collapseGo true cs
    else c :: collapseGo false cs
  | false, c :: cs =>
    if isPySpace c then
      match cs with
      | [] => [c]
      | d :: _ =>
        if isPySpace d then ' ' :: collapseGo true cs
        else c :: collapseGo false cs
    else c :: collapseGo false cs

/-- Embedding of `re.sub(r'(\s+;)$', ';', d)` on the reversed character
list: `$` matches at the end of the string or just before one trailing
newline, so on the reversed list the match is a leading `;` or `\n ;`,
followed by the (reversed) whitespace run to delete. -/
def stripRev : List Char → List Char
  | [] => []
  | c :: rest =>
    if c = ';' then ';' :: rest.dropWhile isPySpace
    else if c = '\n' then
      match rest with
      | [] => ['\n']
      | d :: rest2 =>
        if d = ';' then '\n' :: ';' :: rest2.dropWhile isPySpace
        else '\n' :: d :: rest2
    else c :: rest

/-- Embedding of `re.sub(r'(\s+;)$', ';', d)` itself. -/
def stripDistantSemi (l : List Char) : List Char :=
  (stripRev l.reverse).reverse

/-- Embedding of `re.sub(r';\s+', ';\n', d)`: a semicolon followed by
whitespace emits `;` and a newline and swallows the whitespace run (mode
`true`); all other characters are copied. -/
def explodeGo : Bool → List Char → List Char
  | _, [] => []
  | true, c :: cs =>
    if isPySpace c then explodeGo true cs
    else if c = ';' then
      match cs with
      | [] => [';']
      | d :: _ =>
        if isPySpace d then ';' :: '\n' :: explodeGo true cs
        else ';' :: explodeGo false cs
    else c :: explodeGo false cs
  | false, c :: cs =>
    if c = ';' then
      match cs with
      | [] => [';']
      | d :: _ =>
        if isPySpace d then ';' :: '\n' :: explodeGo true cs
        else ';' :: explodeGo false cs
    else c :: explodeGo false cs

/-- The three output filters of `app` in their configured order
(`schemasync_tables.py` lines 390-392), as applied to a string by
`PatchBuffer.save` (`for f in self.filters: data = f(data)`). -/
def applyOutputFilters (s : String) : List Char :=
  explodeGo false (stripDistantSemi (collapseGo false s.toList))

/-- No two adjacent whitespace characters (the post-state of collapsing all
multi-whitespace runs). -/
def noWW (a b : Char) : Prop :=
  isPySpace a = false ∨ isPySpace b = false

/-- A semicolon followed by whitespace is followed by a newline. -/
def semiOK (a b : Char) : Prop :=
  a = ';' → isPySpace b = true → b = '\n'

/-! ## Lemmas about `compare_version` -/

theorem cvGo_find (l : List (String × String)) :
    cvGo l =
      match l.find? (fun p => p.1 != p.2) with
      | none => PyCmpResult.int 0
      | some (a, b) =>
        match pyInt? a, pyInt? b with
        | some i, some j => .bool (i == j)
        | _, _ => .int 0 := by
  induction l with
  | nil => rfl
  | cons pr rest ih =>
    obtain ⟨a, b⟩ := pr
    by_cases h : a = b
    · subst h
      rw [List.find?_cons]
      have hp : ((a, a).1 != (a, a).2) = false := by simp
      simp only [hp]
      simpa [cvGo] using ih
    · rw [List.find?_cons]
      have hp : ((a, b).1 != (a, b).2) = true := by simpa using h
      simp only [hp]
      simp [cvGo, h]

theorem cvGo_val_bounds (l : List (String × String)) :
    0 ≤ toIntVal (cvGo l) ∧ toIntVal (cvGo l) ≤ 1 := by
  induction l with
  | nil => simp [cvGo, toIntVal]
  | cons pr rest ih =>
    obtain ⟨a, b⟩ := pr
    by_cases h : a = b
    · simpa [cvGo, h] using ih
    · simp only [cvGo, if_pos h]
      cases pyInt? a <;> cases pyInt? b <;> simp [toIntVal]
      split <;> omega

theorem cvGo_swap (l : List (String × String)) :
    cvGo (l.map Prod.swap) = cvGo l := by
  induction l with
  | nil => rfl
  | cons pr rest ih =>
    obtain ⟨a, b⟩ := pr
    by_cases h : a = b
    · subst h
      simpa [cvGo] using ih
    · have h' : b ≠ a := Ne.symm h
      simp only [List.map_cons, Prod.swap_prod_mk, cvGo, if_pos h, if_pos h']
      cases ha : pyInt? a <;> cases hb : pyInt? b <;> simp
      rename_i i j
      by_cases hij : i = j
      · subst hij; rfl
      · simp [beq_eq_false_iff_ne, hij, Ne.symm hij]

theorem cvGo_zip_self (l : List String) : cvGo (l.zip l) = .int 0 := by
  induction l with
  | nil => rfl
  | cons a rest ih =>
    rw [List.zip_cons_cons]
    rw [show cvGo ((a, a) :: rest.zip rest) = cvGo (rest.zip rest) by
      simp [cvGo]]
    exact ih

theorem compare_version_self (x : String) : compare_version x x = .int 0 :=
  cvGo_zip_self (splitSep x)

theorem compare_version_comm (x y : String) :
    compare_version x y = compare_version y x := by
  unfold compare_version
  rw [← List.zip_swap (splitSep x) (splitSep y), cvGo_swap]

/-! ## Claims C1, C2, C9 -/

/-- C1: for every pair of version strings, `compare_version` returns only an
equality signal: its result is the integer `0` or the boolean equality of the
first differing numeric components, and its numeric value lies in `[0, 1]` —
it is never a negative or positive value ordering `x` below or above `y`. -/
theorem c1_compare_version_equality_signal_only (x y : String) :
    (0 ≤ toIntVal (compare_version x y) ∧ toIntVal (compare_version x y) ≤ 1) ∧
    (compare_version x y = PyCmpResult.int 0 ∨
      ∃ a b i j, firstDiff x y = some (a, b) ∧ pyInt? a = some i ∧
        pyInt? b = some j ∧ compare_version x y = PyCmpResult.bool (i == j)) := by
  refine ⟨cvGo_val_bounds _, ?_⟩
  unfold compare_version firstDiff
  rw [cvGo_find]
  cases hf : ((splitSep x).zip (splitSep y)).find? (fun p => p.1 != p.2) with
  | none => exact Or.inl rfl
  | some pr =>
    obtain ⟨a, b⟩ := pr
    cases ha : pyInt? a with
    | none => cases hb : pyInt? b <;> exact Or.inl (by simp [ha, hb])
    | some i =>
      cases hb : pyInt? b with
      | none => exact Or.inl (by simp [ha, hb])
      | some j => exact Or.inr ⟨a, b, i, j, rfl, ha, hb, by simp [ha, hb]⟩

/-- C2: the claim says `app` rejects a server version below 5.0.0 with an
error and return code 1 before any diffing.  The code cannot do this: the
guard is `compare_version(version, '5.0.0') < 0`, but `compare_version`
returns only `0`, `False` or `True` (numeric values 0 and 1), so the guard is
false for every version string; e.g. for a source at version `4.1.25` the
comparison yields `False` and `app` proceeds to diffing. -/
theorem c2_version_guard_never_rejects :
    compare_version "4.1.25" "5.0.0" = PyCmpResult.bool false ∧
    version_check_below_min "4.1.25" = false ∧
    ∀ v : String, version_check_below_min v = false := by
  refine ⟨by decide, by decide, fun v => ?_⟩
  have h := (cvGo_val_bounds ((splitSep v).zip (splitSep "5.0.0"))).1
  simp only [version_check_below_min, compare_version, decide_eq_false_iff_not,
    not_lt]
  exact h

/-- C9 (counterexample): the claim states that any component that cannot be
parsed as an integer makes the result `0`; but for `x = "01.a"`, `y = "1.b"`
the component `"a"` of `x` cannot be parsed, yet the result is `True`
(numeric value 1, not 0), because the first differing components `"01"` and
`"1"` parse to equal integers. -/
theorem c9_counterexample_unparsed_component_nonzero :
    "a" ∈ splitSep "01.a" ∧ pyInt? "a" = none ∧
    compare_version "01.a" "1.b" = PyCmpResult.bool true ∧
    toIntVal (compare_version "01.a" "1.b") ≠ 0 := by decide

/-- C9 (amended): `compare_version` is reflexive (`compare_version x x = 0`)
and symmetric (`compare_version x y = compare_version y x`); and when the
first differing component pair has a side that cannot be parsed as an
integer, the result is `0`.  (The original claim asserted this for any
unparseable component; it only holds for the first differing pair, the one
the code actually parses.) -/
theorem c9_amended_reflexive_symmetric (x y : String) :
    compare_version x x = PyCmpResult.int 0 ∧
    compare_version x y = compare_version y x ∧
    (∀ a b, firstDiff x y = some (a, b) →
      pyInt? a = none ∨ pyInt? b = none →
      compare_version x y = PyCmpResult.int 0) := by
  refine ⟨compare_version_self x, compare_version_comm x y, fun a b hf hn => ?_⟩
  unfold compare_version
  rw [cvGo_find]
  unfold firstDiff at hf
  rw [hf]
  rcases hn with hn | hn
  · cases hb : pyInt? b <;> simp [hn, hb]
  · cases ha : pyInt? a <;> simp [hn, ha]

/-- C9 (witness): instantiating the amended claim at `x = "1.a"`,
`y = "1.b"`, whose first differing components `"a"`, `"b"` are unparseable. -/
theorem c9_amended_witness : compare_version "1.a" "1.b" = PyCmpResult.int 0 :=
  (c9_amended_reflexive_symmetric "1.a" "1.b").2.2 "a" "b" (by decide)
    (Or.inl (by decide))

/-- C10 (counterexample): for `tag = "a!!b"` the two bad characters are first
replaced by underscores giving `"a__b"`, but the code then collapses the
underscore run, so the basename holds `"a_b"`, not the charwise replacement
`"a__b"` the claim describes. -/
theorem c10_counterexample_underscore_collapse :
    pySubNonWord "a!!b" = "a__b" ∧
    (create_pnames "db" (some "a!!b") "20251012" false).1 =
      "db_a_b.20251012.patch.sql" ∧
    (create_pnames "db" (some "a!!b") "20251012" false).1 ≠
      "db_" ++ pySubNonWord "a!!b" ++ ".20251012.patch.sql" := by decide

/-- C10 (amended): `create_pnames` returns a pair sharing one basename with
suffixes `.patch.sql` and `.revert.sql`; when a (non-empty) tag is given the
basename is the database name, the sanitized tag — every character outside
`[A-Za-z0-9_-]` replaced by an underscore and then, if the result contains
`'__'`, runs of underscores collapsed to a single underscore — and the date,
which is included even when `no_date` is true. -/
theorem c10_amended_pnames_shape (db t d : String) (tag : Option String)
    (no_date : Bool) :
    (∃ b, create_pnames db tag d no_date = (b ++ "." ++ "patch.sql", b ++ "." ++ "revert.sql")) ∧
    (t ≠ "" → create_pnames db (some t) d no_date =
      (db ++ "_" ++ pyTagBasename t ++ "." ++ d ++ "." ++ "patch.sql",
       db ++ "_" ++ pyTagBasename t ++ "." ++ d ++ "." ++ "revert.sql")) := by
  constructor
  · exact ⟨_, rfl⟩
  · intro ht
    simp [create_pnames, ht]

/-- C10 (witness): the amended claim at `db = "db"`, `tag = "my tag"`,
`d = "20251012"`, `no_date = true`: the space is replaced by an underscore
and the date is present despite `no_date`. -/
theorem c10_amended_pnames_shape_witness :
    create_pnames "db" (some "my tag") "20251012" true =
      ("db" ++ "_" ++ pyTagBasename "my tag" ++ "." ++ "20251012" ++ "." ++ "patch.sql",
       "db" ++ "_" ++ pyTagBasename "my tag" ++ "." ++ "20251012" ++ "." ++ "revert.sql") :=
  (c10_amended_pnames_shape "db" "my tag" "20251012" (some "my tag") true).2
    (by decide)

/-! ## Characterization of `appEvents` -/

theorem foldl_entityStep_selected (k : Kind) (fk : Bool)
    (ls : List (String × String)) (st : St) (h : st.dbSelected = true) :
    ls.foldl (entityStep k fk) st =
      ⟨true, st.evs ++ blocksOf k (ls.filter bothNE)⟩ := by
  induction ls generalizing st with
  | nil =>
    obtain ⟨d, e⟩ := st
    simp only [St.dbSelected] at h
    subst h
    simp [blocksOf]
  | cons pr rest ih =>
    rw [List.foldl_cons]
    by_cases hp : bothNE pr
    · have hstep : entityStep k fk st pr =
          { st with evs := st.evs ++ [Ev.block k pr.1 pr.2] } := by
        unfold entityStep
        rw [if_pos hp, if_pos h]
      have hfc : List.filter bothNE (pr :: rest) = pr :: List.filter bothNE rest := by
        rw [List.filter_cons, if_pos hp]
      rw [hstep, ih ⟨st.dbSelected, st.evs ++ [Ev.block k pr.1 pr.2]⟩ h, hfc]
      simp [blocksOf, List.append_assoc]
    · have hstep : entityStep k fk st pr = st := by
        unfold entityStep
        rw [if_neg hp]
      have hfc : List.filter bothNE (pr :: rest) = List.filter bothNE rest := by
        rw [List.filter_cons, if_neg hp]
      rw [hstep, ih st h, hfc]

theorem foldl_entityStep_unselected (k : Kind) (fk : Bool)
    (ls : List (String × String)) (st : St) (h : st.dbSelected = false) :
    ls.foldl (entityStep k fk) st =
      if ls.filter bothNE = [] then st
      else ⟨true, st.evs ++ preamble fk ++ blocksOf k (ls.filter bothNE)⟩ := by
  induction ls generalizing st with
  | nil => simp
  | cons pr rest ih =>
    rw [List.foldl_cons]
    by_cases hp : bothNE pr
    · have hstep : entityStep k fk st pr =
          ⟨true, st.evs ++ preamble fk ++ [Ev.block k pr.1 pr.2]⟩ := by
        unfold entityStep
        rw [if_pos hp, if_neg (by simp [h])]
      have hfc : List.filter bothNE (pr :: rest) = pr :: List.filter bothNE rest := by
        rw [List.filter_cons, if_pos hp]
      rw [hstep, foldl_entityStep_selected k fk rest _ rfl, hfc,
        if_neg (by simp)]
      simp [blocksOf, List.append_assoc]
    · have hstep : entityStep k fk st pr = st := by
        unfold entityStep
        rw [if_neg hp]
      have hfc : List.filter bothNE (pr :: rest) = List.filter bothNE rest := by
        rw [List.filter_cons, if_neg hp]
      rw [hstep, ih st h, hfc]

theorem foldl_entityStep_true (k : Kind) (fk : Bool)
    (ls : List (String × String)) (E : List Ev) :
    ls.foldl (entityStep k fk) ⟨true, E⟩ =
      ⟨true, E ++ blocksOf k (ls.filter bothNE)⟩ :=
  foldl_entityStep_selected k fk ls ⟨true, E⟩ rfl

theorem foldl_entityStep_false (k : Kind) (fk : Bool)
    (ls : List (String × String)) (E : List Ev) :
    ls.foldl (entityStep k fk) ⟨false, E⟩ =
      if ls.filter bothNE = [] then ⟨false, E⟩
      else ⟨true, E ++ preamble fk ++ blocksOf k (ls.filter bothNE)⟩ :=
  foldl_entityStep_unselected k fk ls ⟨false, E⟩ rfl

theorem fk1Step_true (E : List Ev) : fk1Step ⟨true, E⟩ = ⟨true, E ++ [Ev.fk1]⟩ := rfl

theorem fk1Step_false (E : List Ev) : fk1Step ⟨false, E⟩ = ⟨false, E⟩ := rfl

theorem appEvents_tables_written (tables views trigs procs : List (String × String))
    (h : tables.filter bothNE ≠ []) :
    appEvents tables views trigs procs =
      [Ev.sel, Ev.fk0] ++ blocksOf .table (tables.filter bothNE) ++ [Ev.fk1]
        ++ blocksOf .view (views.filter bothNE)
        ++ blocksOf .trig (trigs.filter bothNE)
        ++ blocksOf .routine (procs.filter bothNE) := by
  unfold appEvents
  rw [foldl_entityStep_false, if_neg h, fk1Step_true, foldl_entityStep_true,
    foldl_entityStep_true, foldl_entityStep_true]
  simp [preamble, List.append_assoc]

theorem filterMap_preamble {α : Type} (f : Ev → Option α)
    (hsel : f Ev.sel = none) (hfk0 : f Ev.fk0 = none) (fk : Bool) :
    (preamble fk).filterMap f = [] := by
  cases fk <;> simp [preamble, hsel, hfk0]

theorem filterMap_foldl_entityStep {α : Type} (f : Ev → Option α)
    (hsel : f Ev.sel = none) (hfk0 : f Ev.fk0 = none)
    (k : Kind) (fk : Bool) (ls : List (String × String)) (st : St) :
    ((ls.foldl (entityStep k fk) st).evs).filterMap f =
      st.evs.filterMap f ++ (blocksOf k (ls.filter bothNE)).filterMap f := by
  cases hd : st.dbSelected
  · rw [foldl_entityStep_unselected k fk ls st hd]
    by_cases he : ls.filter bothNE = []
    · rw [if_pos he, he]
      simp [blocksOf]
    · rw [if_neg he]
      simp [List.filterMap_append, filterMap_preamble f hsel hfk0]
  · rw [foldl_entityStep_selected k fk ls st hd]
    simp [List.filterMap_append]

theorem filterMap_fk1Step {α : Type} (f : Ev → Option α)
    (hfk1 : f Ev.fk1 = none) (st : St) :
    ((fk1Step st).evs).filterMap f = st.evs.filterMap f := by
  unfold fk1Step
  by_cases hd : st.dbSelected = true
  · rw [if_pos hd]
    simp [List.filterMap_append, hfk1]
  · rw [if_neg hd]

theorem filterMap_appEvents {α : Type} (f : Ev → Option α)
    (hsel : f Ev.sel = none) (hfk0 : f Ev.fk0 = none) (hfk1 : f Ev.fk1 = none)
    (tables views trigs procs : List (String × String)) :
    (appEvents tables views trigs procs).filterMap f =
      (blocksOf .table (tables.filter bothNE)).filterMap f
        ++ (blocksOf .view (views.filter bothNE)).filterMap f
        ++ (blocksOf .trig (trigs.filter bothNE)).filterMap f
        ++ (blocksOf .routine (procs.filter bothNE)).filterMap f := by
  unfold appEvents
  rw [filterMap_foldl_entityStep f hsel hfk0,
    filterMap_foldl_entityStep f hsel hfk0,
    filterMap_foldl_entityStep f hsel hfk0,
    filterMap_fk1Step f hfk1,
    filterMap_foldl_entityStep f hsel hfk0]
  simp [List.append_assoc]

theorem filterMap_blockOf_blocksOf (k : Kind) (l : List (String × String)) :
    (blocksOf k l).filterMap blockOf = l.map (fun pr => (k, pr.1, pr.2)) := by
  induction l with
  | nil => rfl
  | cons pr rest ih => simp [blocksOf, List.filterMap_cons, blockOf] at ih ⊢; exact ih

theorem filterMap_kindOf_blocksOf (k : Kind) (l : List (String × String)) :
    (blocksOf k l).filterMap kindOf = List.replicate l.length k := by
  induction l with
  | nil => rfl
  | cons pr rest ih =>
    simp [blocksOf, List.filterMap_cons, kindOf, List.replicate_succ] at ih ⊢
    exact ih

theorem count_fk0_blocksOf (k : Kind) (l : List (String × String)) :
    (blocksOf k l).count Ev.fk0 = 0 :=
  List.count_eq_zero.mpr (by simp [blocksOf])

theorem count_fk1_blocksOf (k : Kind) (l : List (String × String)) :
    (blocksOf k l).count Ev.fk1 = 0 :=
  List.count_eq_zero.mpr (by simp [blocksOf])

/-! ## Claims C4, C5, C6 -/

/-- C4 (counterexample): the claim says every yielded pair with at least one
non-empty side is written; but the loops test `if patch and revert:`, so a
pair whose revert side is empty is dropped even though its patch side is
non-empty — with a single such table pair nothing at all is written. -/
theorem c4_counterexample_half_empty_pair_dropped :
    appEvents [("ALTER TABLE t1;", "")] [] [] [] = [] ∧
    ("ALTER TABLE t1;" : String) ≠ "" := by decide

/-- C4 (amended): a `(forward, backward)` pair yielded by a synchronizer is
written to the output exactly when both sides are non-empty (Python
truthiness of `if patch and revert:`): the block payloads of the written
event sequence are precisely the both-non-empty pairs of each synchronizer,
in order.  (The original claim admitted pairs with one empty side; the code
omits those as well.) -/
theorem c4_amended_written_iff_both_nonempty
    (tables views trigs procs : List (String × String)) :
    (appEvents tables views trigs procs).filterMap blockOf =
      (tables.filter bothNE).map (fun pr => (Kind.table, pr.1, pr.2))
        ++ (views.filter bothNE).map (fun pr => (Kind.view, pr.1, pr.2))
        ++ (trigs.filter bothNE).map (fun pr => (Kind.trig, pr.1, pr.2))
        ++ (procs.filter bothNE).map (fun pr => (Kind.routine, pr.1, pr.2)) := by
  rw [filterMap_appEvents blockOf rfl rfl rfl,
    filterMap_blockOf_blocksOf, filterMap_blockOf_blocksOf,
    filterMap_blockOf_blocksOf, filterMap_blockOf_blocksOf]

/-- C5: whenever at least one table block is written, the event sequence —
rendered identically into the patch and revert buffers — contains exactly one
`FOREIGN_KEY_CHECKS` disable and exactly one enable, with the disable written
(after the `USE` statement) before the first table block and the enable
directly after the last table block, before any view/trigger/routine
block. -/
theorem c5_fk_checks_wrap_tables
    (tables views trigs procs : List (String × String))
    (h : tables.filter bothNE ≠ []) :
    (appEvents tables views trigs procs).count Ev.fk0 = 1 ∧
    (appEvents tables views trigs procs).count Ev.fk1 = 1 ∧
    appEvents tables views trigs procs =
      [Ev.sel, Ev.fk0] ++ blocksOf .table (tables.filter bothNE) ++ [Ev.fk1]
        ++ blocksOf .view (views.filter bothNE)
        ++ blocksOf .trig (trigs.filter bothNE)
        ++ blocksOf .routine (procs.filter bothNE) := by
  refine ⟨?_, ?_, appEvents_tables_written tables views trigs procs h⟩
  · rw [appEvents_tables_written tables views trigs procs h]
    simp [List.count_append, count_fk0_blocksOf, List.count_cons,
      List.count_nil]
  · rw [appEvents_tables_written tables views trigs procs h]
    simp [List.count_append, count_fk1_blocksOf, List.count_cons,
      List.count_nil]

/-- C5 (witness): one written table pair and no other changes. -/
theorem c5_fk_checks_wrap_tables_witness :
    (appEvents [("a", "b")] [] [] []).count Ev.fk0 = 1 ∧
    (appEvents [("a", "b")] [] [] []).count Ev.fk1 = 1 ∧
    appEvents [("a", "b")] [] [] [] =
      [Ev.sel, Ev.fk0] ++ blocksOf .table ([("a", "b")].filter bothNE) ++ [Ev.fk1]
        ++ blocksOf .view (([] : List (String × String)).filter bothNE)
        ++ blocksOf .trig (([] : List (String × String)).filter bothNE)
        ++ blocksOf .routine (([] : List (String × String)).filter bothNE) :=
  c5_fk_checks_wrap_tables [("a", "b")] [] [] [] (by decide)

/-- C6: in the written event sequence — rendered in the same order into both
the patch and the revert buffers — all table blocks precede all view blocks,
all view blocks precede all trigger blocks, and all trigger blocks precede
all routine blocks: the sequence of block kinds is exactly tables, then
views, then triggers, then routines. -/
theorem c6_output_kind_order (tables views trigs procs : List (String × String)) :
    (appEvents tables views trigs procs).filterMap kindOf =
      List.replicate (tables.filter bothNE).length Kind.table
        ++ List.replicate (views.filter bothNE).length Kind.view
        ++ List.replicate (trigs.filter bothNE).length Kind.trig
        ++ List.replicate (procs.filter bothNE).length Kind.routine := by
  rw [filterMap_appEvents kindOf rfl rfl rfl,
    filterMap_kindOf_blocksOf, filterMap_kindOf_blocksOf,
    filterMap_kindOf_blocksOf, filterMap_kindOf_blocksOf]

/-! ## Claim C8 -/

/-- C8: if no synchronizer yields a pair with both sides non-empty, nothing
is ever written: the event sequence is empty, so the patch buffer keeps
`modified = False` and `app` reports the databases in sync and returns 0
without writing any file; and `PatchBuffer.save` on an empty buffer returns
`False` with no file side effect. -/
theorem c8_no_changes_no_files
    (tables views trigs procs : List (String × String))
    (pb rb : PatchBuffer) (sel fk0 fk1 : String)
    (h : ∀ pr ∈ tables ++ views ++ trigs ++ procs, bothNE pr = false)
    (hpb : pb.modified = false) :
    appEvents tables views trigs procs = [] ∧
    appFinish
        (bufferAfter pb
          ((appEvents tables views trigs procs).map (renderPatch sel fk0 fk1)))
        (bufferAfter rb
          ((appEvents tables views trigs procs).map (renderRevert sel fk0 fk1)))
      = (0, true, none, none) ∧
    (∀ b : PatchBuffer, b.buffer = "" → b.save = (false, none)) := by
  have hT : tables.filter bothNE = [] :=
    List.filter_eq_nil_iff.mpr fun a ha => by
      rw [h a (by simp [ha])]
      simp
  have hV : views.filter bothNE = [] :=
    List.filter_eq_nil_iff.mpr fun a ha => by
      rw [h a (by simp [ha])]
      simp
  have hG : trigs.filter bothNE = [] :=
    List.filter_eq_nil_iff.mpr fun a ha => by
      rw [h a (by simp [ha])]
      simp
  have hP : procs.filter bothNE = [] :=
    List.filter_eq_nil_iff.mpr fun a ha => by
      rw [h a (by simp [ha])]
      simp
  have hEv : appEvents tables views trigs procs = [] := by
    unfold appEvents
    rw [foldl_entityStep_false, if_pos hT, fk1Step_false,
      foldl_entityStep_false, if_pos hV,
      foldl_entityStep_false, if_pos hG,
      foldl_entityStep_false, if_pos hP]
  refine ⟨hEv, ?_, fun b hb => ?_⟩
  · rw [hEv]
    show appFinish (bufferAfter pb []) (bufferAfter rb []) = (0, true, none, none)
    show appFinish pb rb = (0, true, none, none)
    unfold appFinish
    rw [if_pos hpb]
  · unfold PatchBuffer.save
    rw [if_pos hb]

/-- C8 (witness): a single table pair with an empty revert side, fresh
buffers; nothing is written, `app` reports in-sync and writes no file. -/
theorem c8_no_changes_no_files_witness :
    appEvents [("ALTER TABLE t1 ADD c1 INT;", "")] [] [] [] = [] ∧
    appFinish
        (bufferAfter ⟨"p.sql", [], id, "", false⟩
          ((appEvents [("ALTER TABLE t1 ADD c1 INT;", "")] [] [] []).map
            (renderPatch "USE d;" "SET FOREIGN_KEY_CHECKS = 0;"
              "SET FOREIGN_KEY_CHECKS = 1;")))
        (bufferAfter ⟨"r.sql", [], id, "", false⟩
          ((appEvents [("ALTER TABLE t1 ADD c1 INT;", "")] [] [] []).map
            (renderRevert "USE d;" "SET FOREIGN_KEY_CHECKS = 0;"
              "SET FOREIGN_KEY_CHECKS = 1;")))
      = (0, true, none, none) ∧
    (∀ b : PatchBuffer, b.buffer = "" → b.save = (false, none)) :=
  c8_no_changes_no_files [("ALTER TABLE t1 ADD c1 INT;", "")] [] [] []
    ⟨"p.sql", [], id, "", false⟩ ⟨"r.sql", [], id, "", false⟩
    "USE d;" "SET FOREIGN_KEY_CHECKS = 0;" "SET FOREIGN_KEY_CHECKS = 1;"
    (by decide) rfl

/-- C3: with `only_sync_exists_tables = true` the effective table filter
passed to the table synchronizer is exactly the target's current table-name
list — any user-supplied filter is replaced — and no yielded forward or
backward block contains a `CREATE TABLE` or `DROP TABLE` statement.
(`sync_schema` itself is modelled from the spec, as its module is not under
`src/`.) -/
theorem c3_existing_only_no_create_drop
    (user : Option (List String)) (src tgt : List (String × String))
    (fwd bwd : List TableStmt)
    (h : (fwd, bwd) ∈ app_table_sync true user src tgt) :
    resolve_filter_tables true user (tableNames tgt) = some (tableNames tgt) ∧
    ∀ st ∈ fwd ++ bwd, isExistenceStmt st = false := by
  refine ⟨rfl, fun st hst => ?_⟩
  unfold app_table_sync sync_schema at h
  rw [List.mem_filterMap] at h
  obtain ⟨n, _, hn⟩ := h
  rcases hs : lookupTable src n with _ | ds <;>
    rcases ht : lookupTable tgt n with _ | dt <;>
    rw [hs, ht] at hn
  · exact absurd hn (by simp)
  · exact absurd hn (by simp)
  · exact absurd hn (by simp)
  · have hn' : (if ds ≠ dt then
        some ([TableStmt.alterTable n ds], [TableStmt.alterTable n dt])
        else none) = some (fwd, bwd) := hn
    by_cases hd : ds ≠ dt
    · rw [if_pos hd] at hn'
      obtain ⟨hf, hb⟩ : [TableStmt.alterTable n ds] = fwd ∧
          [TableStmt.alterTable n dt] = bwd := by simpa using hn'
      subst hf
      subst hb
      rcases List.mem_append.mp hst with hm | hm <;>
        · rw [List.mem_singleton.mp hm]
          rfl
    · rw [if_neg hd] at hn'
      exact absurd hn' (by simp)

/-- C3 (witness): a user filter `["u"]` is replaced by the target's table
list; the only yielded pair is an alteration of the common table `t`. -/
theorem c3_existing_only_no_create_drop_witness :
    resolve_filter_tables true (some ["u"]) (tableNames [("t", "B")]) =
      some (tableNames [("t", "B")]) ∧
    ∀ st ∈ [TableStmt.alterTable "t" "A"] ++ [TableStmt.alterTable "t" "B"],
      isExistenceStmt st = false :=
  c3_existing_only_no_create_drop (some ["u"]) [("t", "A")] [("t", "B")]
    [TableStmt.alterTable "t" "A"] [TableStmt.alterTable "t" "B"] (by decide)

theorem collapseGo_true_head (l : List Char) :
    ∀ c, (collapseGo true l).head? = some c → isPySpace c = false := by
  induction l with
  | nil => intro c hc; simp [collapseGo] at hc
  | cons e es ih =>
    intro c hc
    by_cases he : isPySpace e
    · rw [show collapseGo true (e :: es) = collapseGo true es by
        simp [collapseGo, he]] at hc
      exact ih c hc
    · rw [show collapseGo true (e :: es) = e :: collapseGo false es by
        simp [collapseGo, he]] at hc
      simp only [List.head?_cons, Option.some.injEq] at hc
      subst hc
      simpa using he

theorem collapseGo_false_head_nonws (d : Char) (ds : List Char)
    (hd : isPySpace d = false) :
    collapseGo false (d :: ds) = d :: collapseGo false ds := by
  simp [collapseGo, hd]

theorem collapseGo_chain (l : List Char) :
    ∀ b, List.Chain' noWW (collapseGo b l) := by
  induction l with
  | nil => intro b; cases b <;> simp [collapseGo]
  | cons c cs ih =>
    intro b
    cases b
    · by_cases hc : isPySpace c
      · cases cs with
        | nil => simp [collapseGo, hc]
        | cons d ds =>
          by_cases hd : isPySpace d
          · rw [show collapseGo false (c :: d :: ds) =
                ' ' :: collapseGo true (d :: ds) by simp [collapseGo, hc, hd]]
            rw [List.chain'_cons']
            refine ⟨fun y hy => ?_, ih true⟩
            rw [Option.mem_def] at hy
            exact Or.inr (collapseGo_true_head _ y hy)
          · rw [show collapseGo false (c :: d :: ds) =
                c :: collapseGo false (d :: ds) by simp [collapseGo, hc, hd]]
            rw [List.chain'_cons']
            refine ⟨fun y hy => ?_, ih false⟩
            rw [Option.mem_def,
              collapseGo_false_head_nonws d ds (by simpa using hd)] at hy
            simp only [List.head?_cons, Option.some.injEq] at hy
            subst hy
            exact Or.inr (by simpa using hd)
      · rw [show collapseGo false (c :: cs) = c :: collapseGo false cs by
          simp [collapseGo, hc]]
        rw [List.chain'_cons']
        exact ⟨fun y _ => Or.inl (by simpa using hc), ih false⟩
    · by_cases hc : isPySpace c
      · rw [show collapseGo true (c :: cs) = collapseGo true cs by
          simp [collapseGo, hc]]
        exact ih true
      · rw [show collapseGo true (c :: cs) = c :: collapseGo false cs by
          simp [collapseGo, hc]]
        rw [List.chain'_cons']
        exact ⟨fun y _ => Or.inl (by simpa using hc), ih false⟩

theorem stripRev_chain (l : List Char) (h : List.Chain' noWW l) :
    List.Chain' noWW (stripRev l) := by
  cases l with
  | nil => simp [stripRev]
  | cons c rest =>
    by_cases h1 : c = ';'
    · subst h1
      rw [show stripRev (';' :: rest) = ';' :: rest.dropWhile isPySpace by
        simp [stripRev]]
      rw [List.chain'_cons']
      exact ⟨fun y _ => Or.inl (by decide),
        h.tail.suffix (List.dropWhile_suffix isPySpace)⟩
    · by_cases h2 : c = '\n'
      · subst h2
        cases rest with
        | nil => simp [stripRev]
        | cons d rest2 =>
          by_cases h3 : d = ';'
          · subst h3
            rw [show stripRev ('\n' :: ';' :: rest2) =
                '\n' :: ';' :: rest2.dropWhile isPySpace by simp [stripRev, h1]]
            rw [List.chain'_cons']
            refine ⟨fun y hy => ?_, ?_⟩
            · rw [Option.mem_def] at hy
              simp only [List.head?_cons, Option.some.injEq] at hy
              subst hy
              exact Or.inr (by decide)
            · rw [List.chain'_cons']
              exact ⟨fun y _ => Or.inl (by decide),
                h.tail.tail.suffix (List.dropWhile_suffix isPySpace)⟩
          · rw [show stripRev ('\n' :: d :: rest2) = '\n' :: d :: rest2 by
              simp [stripRev, h1, h3]]
            exact h
      · rw [show stripRev (c :: rest) = c :: rest by simp [stripRev, h1, h2]]
        exact h

theorem chain_noWW_flip {l : List Char} (h : List.Chain' noWW l) :
    List.Chain' (flip noWW) l :=
  h.imp fun _ _ hab => hab.symm

theorem stripDistantSemi_chain (l : List Char) (h : List.Chain' noWW l) :
    List.Chain' noWW (stripDistantSemi l) := by
  unfold stripDistantSemi
  have hrev : List.Chain' noWW l.reverse :=
    List.chain'_reverse.mpr (chain_noWW_flip h)
  have hs := stripRev_chain l.reverse hrev
  exact List.chain'_reverse.mpr (chain_noWW_flip hs)

theorem isPySpace_semi : isPySpace ';' = false := rfl

theorem isPySpace_nl : isPySpace '\n' = true := rfl

theorem explodeGo_true_head (l : List Char) :
    ∀ c, (explodeGo true l).head? = some c → isPySpace c = false := by
  induction l with
  | nil => intro c hc; simp [explodeGo] at hc
  | cons e es ih =>
    intro c hc
    by_cases he : isPySpace e
    · rw [show explodeGo true (e :: es) = explodeGo true es by
        simp [explodeGo, he]] at hc
      exact ih c hc
    · by_cases hsemi : e = ';'
      · subst hsemi
        cases es with
        | nil =>
          rw [show explodeGo true [';'] = [';'] by simp [explodeGo, isPySpace_semi]] at hc
          simp only [List.head?_cons, Option.some.injEq] at hc
          subst hc
          decide
        | cons d ds =>
          by_cases hd : isPySpace d
          · rw [show explodeGo true (';' :: d :: ds) =
                ';' :: '\n' :: explodeGo true (d :: ds) by
                simp [explodeGo, isPySpace_semi, hd]] at hc
            simp only [List.head?_cons, Option.some.injEq] at hc
            subst hc
            decide
          · rw [show explodeGo true (';' :: d :: ds) =
                ';' :: explodeGo false (d :: ds) by
                simp [explodeGo, isPySpace_semi, hd]] at hc
            simp only [List.head?_cons, Option.some.injEq] at hc
            subst hc
            decide
      · rw [show explodeGo true (e :: es) = e :: explodeGo false es by
          simp [explodeGo, he, hsemi]] at hc
        simp only [List.head?_cons, Option.some.injEq] at hc
        subst hc
        simpa using he

theorem explodeGo_false_head (d : Char) (ds : List Char) :
    (explodeGo false (d :: ds)).head? = some d := by
  by_cases hsemi : d = ';'
  · subst hsemi
    cases ds with
    | nil => simp [explodeGo]
    | cons e es =>
      by_cases he : isPySpace e
      · rw [show explodeGo false (';' :: e :: es) =
          ';' :: '\n' :: explodeGo true (e :: es) by simp [explodeGo, he]]
        rfl
      · rw [show explodeGo false (';' :: e :: es) =
          ';' :: explodeGo false (e :: es) by simp [explodeGo, he]]
        rfl
  · rw [show explodeGo false (d :: ds) = d :: explodeGo false ds by
      simp [explodeGo, hsemi]]
    rfl

theorem explodeGo_chain (l : List Char) (h : List.Chain' noWW l) :
    ∀ b, List.Chain' noWW (explodeGo b l) := by
  induction l with
  | nil => intro b; cases b <;> simp [explodeGo]
  | cons e es ih =>
    intro b
    have htail := h.tail
    have hhead := (List.chain'_cons'.mp h).1
    have main : List.Chain' noWW (explodeGo false (e :: es)) := by
      by_cases hsemi : e = ';'
      · subst hsemi
        cases es with
        | nil => simp [explodeGo]
        | cons d ds =>
          by_cases hd : isPySpace d
          · rw [show explodeGo false (';' :: d :: ds) =
                ';' :: '\n' :: explodeGo true (d :: ds) by simp [explodeGo, hd]]
            rw [List.chain'_cons']
            refine ⟨fun y hy => ?_, ?_⟩
            · simp only [List.head?_cons, Option.mem_def, Option.some.injEq] at hy
              exact Or.inl isPySpace_semi
            · rw [List.chain'_cons']
              refine ⟨fun y hy => ?_, ih htail true⟩
              rw [Option.mem_def] at hy
              exact Or.inr (explodeGo_true_head _ y hy)
          · rw [show explodeGo false (';' :: d :: ds) =
                ';' :: explodeGo false (d :: ds) by simp [explodeGo, hd]]
            rw [List.chain'_cons']
            exact ⟨fun y _ => Or.inl isPySpace_semi, ih htail false⟩
      · rw [show explodeGo false (e :: es) = e :: explodeGo false es by
          simp [explodeGo, hsemi]]
        rw [List.chain'_cons']
        refine ⟨fun y hy => ?_, ih htail false⟩
        cases es with
        | nil => simp [explodeGo] at hy
        | cons f fs =>
          rw [Option.mem_def, explodeGo_false_head f fs] at hy
          injection hy with hfy
          subst hfy
          exact hhead f rfl
    cases b
    · exact main
    · by_cases he : isPySpace e
      · rw [show explodeGo true (e :: es) = explodeGo true es by
          simp [explodeGo, he]]
        exact ih htail true
      · rw [show explodeGo true (e :: es) = explodeGo false (e :: es) by
          by_cases hsemi : e = ';'
          · subst hsemi
            cases es with
            | nil => simp [explodeGo, isPySpace_semi]
            | cons d ds => by_cases hd : isPySpace d <;> simp [explodeGo, he, hd]
          · simp [explodeGo, he, hsemi]]
        exact main

theorem explodeGo_semiOK (l : List Char) :
    ∀ b, List.Chain' semiOK (explodeGo b l) := by
  induction l with
  | nil => intro b; cases b <;> simp [explodeGo]
  | cons e es ih =>
    intro b
    have main : List.Chain' semiOK (explodeGo false (e :: es)) := by
      by_cases hsemi : e = ';'
      · subst hsemi
        cases es with
        | nil => simp [explodeGo]
        | cons d ds =>
          by_cases hd : isPySpace d
          · rw [show explodeGo false (';' :: d :: ds) =
                ';' :: '\n' :: explodeGo true (d :: ds) by simp [explodeGo, hd]]
            rw [List.chain'_cons']
            refine ⟨fun y hy => fun _ _ => ?_, ?_⟩
            · simp only [List.head?_cons, Option.mem_def, Option.some.injEq] at hy
              subst hy
              rfl
            · rw [List.chain'_cons']
              refine ⟨fun y _ => fun hcontra _ => ?_, ih true⟩
              exact absurd hcontra (by decide)
          · rw [show explodeGo false (';' :: d :: ds) =
                ';' :: explodeGo false (d :: ds) by simp [explodeGo, hd]]
            rw [List.chain'_cons']
            refine ⟨fun y hy => fun _ hws => ?_, ih false⟩
            rw [Option.mem_def, explodeGo_false_head d ds] at hy
            cases hy
            exact absurd hws (by simpa using hd)
      · rw [show explodeGo false (e :: es) = e :: explodeGo false es by
          simp [explodeGo, hsemi]]
        rw [List.chain'_cons']
        exact ⟨fun y _ => fun hcontra _ => absurd hcontra hsemi, ih false⟩
    cases b
    · exact main
    · by_cases he : isPySpace e
      · rw [show explodeGo true (e :: es) = explodeGo true es by
          simp [explodeGo, he]]
        exact ih true
      · rw [show explodeGo true (e :: es) = explodeGo false (e :: es) by
          by_cases hsemi : e = ';'
          · subst hsemi
            cases es with
            | nil => simp [explodeGo, isPySpace_semi]
            | cons d ds => by_cases hd : isPySpace d <;> simp [explodeGo, he, hd]
          · simp [explodeGo, he, hsemi]]
        exact main

/-- C7: for every string, applying the three output filters in their
configured order yields text with no two adjacent whitespace characters
(every run of two or more whitespace characters has been collapsed to a
single whitespace character) in which every semicolon followed by whitespace
is followed by exactly a newline. -/
theorem c7_output_filters_normalize (s : String) :
    List.Chain' noWW (applyOutputFilters s) ∧
    List.Chain' semiOK (applyOutputFilters s) := by
  have h1 : List.Chain' noWW (collapseGo false s.toList) :=
    collapseGo_chain s.toList false
  have h2 : List.Chain' noWW (stripDistantSemi (collapseGo false s.toList)) :=
    stripDistantSemi_chain _ h1
  exact ⟨explodeGo_chain _ h2 false, explodeGo_semiOK _ false⟩
